import Mathlib

/-!
Verification of the scoring engine of the audio-fingerprinting benchmark
toolkit (evaluate_matches.py, util.py, fields.py).

Modelling conventions.
All interval endpoints of the program are integers (convert_segment_ranges
applies int() to every begin/end field and builds portion.closedopen
intervals), and every interval value that the evaluators manipulate is a
finite union of such closed-open integer intervals.  Such a value is embedded
as its set of integer points (a `Finset ℤ`): portion's &, |, - and emptiness
are exactly ∩, ∪, \ and emptiness of the point sets, and
get_interval_length (the sum of upper-lower over the atomic ranges) is
exactly the cardinality.  Python dicts are embedded as association lists with
unique keys, floats as exact rationals, and a division that Python would
perform unguarded is modelled in `Option`, with `Option.none` standing for a
raised ZeroDivisionError.
-/

namespace AFP

/-- Values of a CSV row dictionary as the Python program sees them: the
string values produced by csv.DictReader, plus the other shapes that
`get_item_as_int` guards against (None, a genuine integer, and a placeholder
for any other object). -/
inductive PyVal where
  | none
  | str (s : String)
  | int (n : ℤ)
  | obj
deriving DecidableEq

/-- Truth value of a PyVal under Python's bool(): empty string, zero and None
are falsy. -/
def pyTruthy : PyVal → Bool
  | PyVal.none => false
  | PyVal.str s => !s.isEmpty
  | PyVal.int n => n != 0
  | PyVal.obj => true

/-- Rendering of a PyVal by str(); the fields interpolated into tag strings
are strings in every run of the program, the remaining cases are
placeholders. -/
def pyRender : PyVal → String
  | PyVal.none => "None"
  | PyVal.str s => s
  | PyVal.int n => toString n
  | PyVal.obj => "object"

/-- Association-list model of a Python dict lookup (`d.get(k)`); dict keys
are unique, lookup returns the first binding. -/
def alookup {α β : Type} [DecidableEq α] : List (α × β) → α → Option β
  | [], _ => Option.none
  | kv :: rest, a => if kv.1 = a then some kv.2 else alookup rest a

/-- Numeric value of a string of decimal digits, as int() reads it (leading
zeros allowed). -/
def digitsVal (l : List Char) : ℤ :=
  l.foldl (fun acc c => 10 * acc + ((c.toNat : ℤ) - ('0'.toNat : ℤ))) 0

/-- At least one character and every character an ASCII digit: one-or-more
matches of the regex class \d (the benchmark's CSV fields are ASCII). -/
def allDigits (l : List Char) : Bool := !l.isEmpty && l.all Char.isDigit

/-- Match of the regular-expression body [+-]?\d+ against a whole list of
characters. -/
def matchSignedDigits : List Char → Bool
  | '+' :: rest => allDigits rest
  | '-' :: rest => allDigits rest
  | l => allDigits l

/-- Python's re.match of the pattern ^[+-]?\d+$ against a string: the $
anchor also accepts a single newline at the very end of the string. -/
def isIntMatch (s : String) : Bool :=
  matchSignedDigits s.toList ||
    (s.toList.getLast? == some '\n' && matchSignedDigits s.toList.dropLast)

/-- Python int() applied to a string accepted by `isIntMatch` (int() strips
the trailing newline that the $ anchor may have admitted). -/
def pyIntOfString (s : String) : ℤ :=
  let l := if s.toList.getLast? == some '\n' then s.toList.dropLast else s.toList
  match l with
  | '+' :: rest => digitsVal rest
  | '-' :: rest => -(digitsVal rest)
  | l => digitsVal l

/-- get_item_as_int from evaluate_matches.py: take d.get(key, default) and
convert it with int() when it is a string matching ^[+-]?\d+$, otherwise
fall back to the default. -/
def get_item_as_int (d : List (String × PyVal)) (key : String) (default : ℤ) : ℤ :=
  let value := (alookup d key).getD (PyVal.int default)
  match value with
  | PyVal.str s => if isIntMatch s then pyIntOfString s else default
  | _ => default

/-- Division as Python performs it: a zero denominator raises
ZeroDivisionError (modelled as `Option.none`). -/
def pydiv (a b : ℚ) : Option ℚ := if b = 0 then Option.none else some (a / b)

/-- calculate_f_score from evaluate_matches.py: the precision has 9-times
greater weight than the recall. -/
def calculate_f_score (recl prec : ℚ) : Option ℚ :=
  if recl + prec > 0 then pydiv (10 * recl * prec) (9 * recl + prec)
  else some 0

/-- portion.closedopen with integer endpoints, as its set of integer
points. -/
def closedopen (a b : ℤ) : Finset ℤ := Finset.Ico a b

/-- get_interval_length from evaluate_matches.py: on a union of closed-open
integer intervals the sum of upper-lower over the atomic ranges is the
number of integer points of the union. -/
def get_interval_length (interval : Finset ℤ) : ℤ := interval.card

/-- round_towards_target from evaluate_matches.py. -/
def round_towards_target (value target : ℚ) : ℤ :=
  if target > value then ⌈value⌉ else ⌊value⌋

/-- State of a RecallPrecisionResults instance: the two observation lists and
the set of attributed tags. -/
structure RecallPrecisionState where
  recalls : List ℚ
  precisions : List ℚ
  tags : Finset String
deriving DecidableEq

/-- A freshly constructed RecallPrecisionResults. -/
def rp_init : RecallPrecisionState := { recalls := [], precisions := [], tags := ∅ }

/-- RecallPrecisionResults.add.  The second component of the result is the
value of the caller's `tags` argument after the call: the method reads the
argument (self._tags.update(tags)) and no statement of it assigns to the
argument, so the returned value is the argument itself. -/
def rp_add (recl prec : ℚ) (tags : Finset String) (s : RecallPrecisionState) :
    RecallPrecisionState × Finset String :=
  ({ recalls := s.recalls ++ [recl], precisions := s.precisions ++ [prec],
     tags := s.tags ∪ tags }, tags)

/-- RecallPrecisionResults.get: means of the stored observations (0 resp. 1
for an empty list) and the derived f-score. -/
def rp_get (s : RecallPrecisionState) : Option (ℚ × ℚ × ℚ) := do
  let recl ← if s.recalls ≠ [] then pydiv s.recalls.sum (s.recalls.length : ℚ) else some 0
  let prec ←
    if s.precisions ≠ [] then pydiv s.precisions.sum (s.precisions.length : ℚ) else some 1
  let fsc ← calculate_f_score recl prec
  some (recl, prec, fsc)

/-- State of a PositivesNegativesResults instance: the inherited
RecallPrecisionResults state plus the four raw counters. -/
structure PositivesNegativesState where
  base : RecallPrecisionState
  tp : ℤ
  up : ℤ
  fp : ℤ
  fn : ℤ
deriving DecidableEq

/-- A freshly constructed PositivesNegativesResults. -/
def pn_init : PositivesNegativesState :=
  { base := rp_init, tp := 0, up := 0, fp := 0, fn := 0 }

/-- PositivesNegativesResults.add: derive recall = tp/(tp+fn) (0 when the
denominator is not positive) and precision = tp/(tp+fp) (1 when the
denominator is not positive), forward to the base add, and sum the raw
counters.  As in `rp_add`, the second component is the value of the caller's
`tags` argument after the call. -/
def pn_add (tp up fp fn : ℤ) (tags : Finset String) (s : PositivesNegativesState) :
    PositivesNegativesState × Finset String :=
  let recl : ℚ := if tp + fn > 0 then (tp : ℚ) / ((tp : ℚ) + (fn : ℚ)) else 0
  let prec : ℚ := if tp + fp > 0 then (tp : ℚ) / ((tp : ℚ) + (fp : ℚ)) else 1
  let r := rp_add recl prec tags s.base
  ({ base := r.1, tp := s.tp + tp, up := s.up + up, fp := s.fp + fp, fn := s.fn + fn }, r.2)

/-- Claim C7: a RecallPrecisionResults accumulator on which add was never
called reports recall 0, precision 1 and f_score 0 from get(), and no
division by zero is raised (get returns a value, not an exception). -/
theorem rp_get_empty : rp_get rp_init = some (0, 1, 0) := by
  norm_num [rp_get, rp_init, pydiv, calculate_f_score]

/-- Claim C8: for nonnegative recall R and precision P, calculate_f_score
returns 10·R·P/(9·R+P) when R+P is positive (without raising) and 0
otherwise; in particular it returns 1 at (1,1) and 0 at (0,Q) for positive
Q. -/
theorem calculate_f_score_spec (R P : ℚ) (hR : 0 ≤ R) (hP : 0 ≤ P) :
    (R + P > 0 → calculate_f_score R P = some (10 * R * P / (9 * R + P)))
    ∧ (¬ R + P > 0 → calculate_f_score R P = some 0)
    ∧ calculate_f_score 1 1 = some 1
    ∧ (∀ Q : ℚ, 0 < Q → calculate_f_score 0 Q = some 0) := by
  refine ⟨fun h => ?_, fun h => ?_, ?_, fun Q hQ => ?_⟩
  · have h9 : 9 * R + P > 0 := by linarith
    simp only [calculate_f_score, if_pos h, pydiv, if_neg (ne_of_gt h9)]
  · simp only [calculate_f_score, if_neg h]
  · norm_num [calculate_f_score, pydiv]
  · have h1 : (0 : ℚ) + Q > 0 := by linarith
    have h2 : 9 * (0 : ℚ) + Q ≠ 0 := by linarith
    simp only [calculate_f_score, if_pos h1, pydiv, if_neg h2]
    norm_num

/-- Witness for C8 at a concrete nonnegative input with positive sum. -/
theorem calculate_f_score_spec_w :
    calculate_f_score 1 2 = some (10 * 1 * 2 / (9 * 1 + 2)) :=
  (calculate_f_score_spec 1 2 (by norm_num) (by norm_num)).1 (by norm_num)

/-- Claim C9: get_item_as_int yields the parsed integer exactly for string
values matching ^[+-]?\d+$; a missing key, a None value, a non-matching
string, and a non-string value (even a genuine integer) all yield the
default. -/
theorem get_item_as_int_spec (d : List (String × PyVal)) (key : String) (default : ℤ) :
    (∀ s : String, alookup d key = some (PyVal.str s) →
      get_item_as_int d key default = if isIntMatch s then pyIntOfString s else default)
    ∧ (alookup d key = Option.none → get_item_as_int d key default = default)
    ∧ (alookup d key = some PyVal.none → get_item_as_int d key default = default)
    ∧ (∀ n : ℤ, alookup d key = some (PyVal.int n) →
      get_item_as_int d key default = default)
    ∧ (alookup d key = some PyVal.obj → get_item_as_int d key default = default) := by
  unfold get_item_as_int
  refine ⟨fun s h => ?_, fun h => ?_, fun h => ?_, fun n h => ?_, fun h => ?_⟩ <;>
    rw [h] <;> rfl

/-- Witness for C9: a genuine integer stored under the key is replaced by the
default. -/
theorem get_item_as_int_spec_w :
    get_item_as_int [("tempo", PyVal.int 50)] "tempo" 100 = 100 :=
  (get_item_as_int_spec [("tempo", PyVal.int 50)] "tempo" 100).2.2.2.1 50 (by decide)

/-- A (query_id, reference_id) key. -/
abbrev PairId : Type := String × String

/-- One annotated or matched segment row after convert_segment_ranges: the
two closed-open intervals (as integer point sets) and the raw row fields. -/
structure Segment where
  reference_interval : Finset ℤ
  query_interval : Finset ℤ
  attrs : List (String × PyVal)
deriving DecidableEq

/-- BaseEvaluator.evaluate: the sequence of _evaluate_pair invocations it
performs, in order.  One call per pair of the matches dict — with that
pair's annotation list when the pair is also a key of the annotations dict,
with [] otherwise — followed by one call per pair of the annotations dict
that is not a key of the matches dict, with [] as the match list. -/
def evaluateCalls (anns ms : List (PairId × List Segment)) :
    List (PairId × List Segment × List Segment) :=
  ms.map (fun pm =>
    match alookup anns pm.1 with
    | some al => (pm.1, al, pm.2)
    | Option.none => (pm.1, [], pm.2))
  ++ (anns.filter (fun pa => (alookup ms pa.1).isNone)).map (fun pa => (pa.1, pa.2, []))

/-- TrackEvaluator._evaluate_pair: the (tp, up, fp, fn) quadruple it adds to
each of its result tables, from the truth values of the two lists. -/
def trackEvaluatePair (al ml : List Segment) : ℤ × ℤ × ℤ × ℤ :=
  let b_ann := !al.isEmpty
  let b_match := !ml.isEmpty
  ((if b_ann && b_match then 1 else 0), 0,
    (if !b_ann && b_match then 1 else 0), (if b_ann && !b_match then 1 else 0))

lemma alookup_eq_none_iff {α β : Type} [DecidableEq α] (l : List (α × β)) (a : α) :
    alookup l a = Option.none ↔ a ∉ l.map Prod.fst := by
  induction l with
  | nil => simp [alookup]
  | cons kv rest ih =>
    by_cases h : kv.1 = a
    · simp [alookup, h]
    · simp [alookup, h, ih, Ne.symm h]

lemma alookup_of_mem {α β : Type} [DecidableEq α] (l : List (α × β)) (kv : α × β) :
    (l.map Prod.fst).Nodup → kv ∈ l → alookup l kv.1 = some kv.2 := by
  induction l with
  | nil => intro _ hm; simp at hm
  | cons hd rest ih =>
    intro hnd hm
    rw [List.mem_cons] at hm
    rcases hm with hm | hm
    · simp [hm, alookup]
    · have hne : hd.1 ≠ kv.1 := by
        intro he
        have hky : kv.1 ∈ rest.map Prod.fst := List.mem_map_of_mem Prod.fst hm
        rw [List.map_cons, List.nodup_cons, he] at hnd
        exact hnd.1 hky
      have hrec := ih (by rw [List.map_cons, List.nodup_cons] at hnd; exact hnd.2) hm
      simp [alookup, hne, hrec]

lemma evaluateCalls_fst (anns ms : List (PairId × List Segment)) :
    (evaluateCalls anns ms).map (fun e => e.1)
      = ms.map Prod.fst ++ (anns.filter (fun pa => (alookup ms pa.1).isNone)).map Prod.fst := by
  simp only [evaluateCalls, List.map_append, List.map_map]
  congr 1
  · apply List.map_congr_left
    intro pm _
    rcases h : alookup anns pm.1 with _ | al <;> simp [h]

/-- Number of occurrences of a key in a duplicate-free list. -/
lemma countP_key_of_nodup {α : Type} [DecidableEq α] (l : List α) (p : α) (hnd : l.Nodup) :
    l.countP (fun a => decide (a = p)) = if p ∈ l then 1 else 0 := by
  induction l with
  | nil => simp
  | cons a l ih =>
    rw [List.nodup_cons] at hnd
    rw [List.countP_cons]
    by_cases hap : a = p
    · subst hap
      simp [hnd.1, ih hnd.2]
    · simp [hap, ih hnd.2, Ne.symm hap]

/-- Claim C1: BaseEvaluator.evaluate calls the strategy-specific scorer
_evaluate_pair exactly once for each key in the union of the two dicts' key
sets — no key of either dict is skipped and no key outside the union is
scored — and every call receives the pair's annotation list and match list,
with [] substituted for whichever side does not contain the key. -/
theorem evaluate_calls_spec (anns ms : List (PairId × List Segment))
    (hA : (anns.map Prod.fst).Nodup) (hM : (ms.map Prod.fst).Nodup) :
    (∀ p : PairId,
      ((evaluateCalls anns ms).map (fun e => e.1)).countP (fun q => decide (q = p))
        = if p ∈ anns.map Prod.fst ∨ p ∈ ms.map Prod.fst then 1 else 0)
    ∧ (∀ e ∈ evaluateCalls anns ms,
      e.2.1 = (alookup anns e.1).getD [] ∧ e.2.2 = (alookup ms e.1).getD []) := by
  constructor
  · intro p
    rw [evaluateCalls_fst, List.countP_append]
    have hnd : ((anns.filter (fun pa => (alookup ms pa.1).isNone)).map Prod.fst).Nodup :=
      hA.sublist (List.Sublist.map _ (List.filter_sublist anns))
    rw [countP_key_of_nodup _ p hM, countP_key_of_nodup _ p hnd]
    by_cases hpm : p ∈ ms.map Prod.fst
    · have h2 : p ∉ (anns.filter (fun pa => (alookup ms pa.1).isNone)).map Prod.fst := by
        intro hmem
        rcases List.mem_map.mp hmem with ⟨pa, hpaf, hfst⟩
        have hnone := (List.mem_filter.mp hpaf).2
        rw [Option.isNone_iff_eq_none, hfst] at hnone
        exact (alookup_eq_none_iff ms p).mp hnone hpm
      rw [if_pos hpm, if_neg h2, if_pos (Or.inr hpm)]
    · rw [if_neg hpm]
      by_cases hpa : p ∈ anns.map Prod.fst
      · have hmem : p ∈ (anns.filter (fun pa => (alookup ms pa.1).isNone)).map Prod.fst := by
          rcases List.mem_map.mp hpa with ⟨pa, hpaa, hfst⟩
          refine List.mem_map.mpr ⟨pa, List.mem_filter.mpr ⟨hpaa, ?_⟩, hfst⟩
          rw [Option.isNone_iff_eq_none, hfst]
          exact (alookup_eq_none_iff ms p).mpr hpm
        rw [if_pos hmem, if_pos (Or.inl hpa)]
      · have h2 : p ∉ (anns.filter (fun pa => (alookup ms pa.1).isNone)).map Prod.fst := by
          intro hmem
          rcases List.mem_map.mp hmem with ⟨pa, hpaf, hfst⟩
          exact hpa (List.mem_map.mpr ⟨pa, (List.mem_filter.mp hpaf).1, hfst⟩)
        rw [if_neg h2, if_neg (by tauto)]
  · intro e he
    rw [evaluateCalls, List.mem_append] at he
    rcases he with he | he
    · rcases List.mem_map.mp he with ⟨pm, hpm, hef⟩
      have hms : alookup ms pm.1 = some pm.2 := alookup_of_mem ms pm hM hpm
      rcases h : alookup anns pm.1 with _ | al <;> rw [h] at hef <;> rw [← hef] <;>
        simp [h, hms]
    · rcases List.mem_map.mp he with ⟨pa, hpaf, hef⟩
      rcases List.mem_filter.mp hpaf with ⟨hpaa, hnone⟩
      rw [Option.isNone_iff_eq_none] at hnone
      have hanns : alookup anns pa.1 = some pa.2 := alookup_of_mem anns pa hA hpaa
      rw [← hef]
      simp [hanns, hnone]

/-- Witness for C1 at concrete one-key dicts sharing no key. -/
theorem evaluate_calls_spec_w :
    ((evaluateCalls [(("q1", "r1"), ([] : List Segment))]
        [(("q2", "r1"), ([] : List Segment))]).map (fun e => e.1)).countP
          (fun q => decide (q = ("q1", "r1")))
      = if ("q1", "r1") ∈ [(("q1", "r1"), ([] : List Segment))].map Prod.fst
            ∨ ("q1", "r1") ∈ [(("q2", "r1"), ([] : List Segment))].map Prod.fst
        then 1 else 0 :=
  (evaluate_calls_spec [(("q1", "r1"), [])] [(("q2", "r1"), [])]
    (by decide) (by decide)).1 ("q1", "r1")

/-- Claim C2: TrackEvaluator._evaluate_pair accumulates tp = 1 exactly when
both lists are non-empty, fn = 1 exactly when only the annotation list is
non-empty, fp = 1 exactly when only the match list is non-empty (each count
is 0 otherwise) and up = 0 always; and a pair that is a key of neither input
dict is never passed to _evaluate_pair, hence never accumulated into any
result table. -/
theorem track_evaluate_pair_spec :
    (∀ al ml : List Segment,
      ((trackEvaluatePair al ml).1 = if al ≠ [] ∧ ml ≠ [] then 1 else 0)
      ∧ ((trackEvaluatePair al ml).2.1 = 0)
      ∧ ((trackEvaluatePair al ml).2.2.1 = if al = [] ∧ ml ≠ [] then 1 else 0)
      ∧ ((trackEvaluatePair al ml).2.2.2 = if al ≠ [] ∧ ml = [] then 1 else 0))
    ∧ (∀ (anns ms : List (PairId × List Segment)) (p : PairId),
      p ∉ anns.map Prod.fst → p ∉ ms.map Prod.fst →
      p ∉ (evaluateCalls anns ms).map (fun e => e.1)) := by
  constructor
  · intro al ml
    rcases al <;> rcases ml <;> simp [trackEvaluatePair]
  · intro anns ms p hpa hpm
    rw [evaluateCalls_fst, List.mem_append]
    rintro (h | h)
    · exact hpm h
    · rcases List.mem_map.mp h with ⟨pa, hpaf, hfst⟩
      exact hpa (List.mem_map.mpr ⟨pa, (List.mem_filter.mp hpaf).1, hfst⟩)

/-- Witness for C2: a pair absent from both dicts is not among the scored
pairs. -/
theorem track_evaluate_pair_spec_w :
    ("q", "r") ∉ (evaluateCalls [(("a", "b"), ([] : List Segment))] []).map (fun e => e.1) :=
  track_evaluate_pair_spec.2 [(("a", "b"), [])] [] ("q", "r") (by decide) (by decide)

/-- The loop of BoundingBoxSegmentEvaluator._evaluate_pair that unions, over
the match segments, the reference-axis overlaps with annotation segment a,
restricted to (a, m) pairings whose overlaps are non-empty on both axes. -/
def refOverlapUnionA (ms : List Segment) (a : Segment) : Finset ℤ :=
  ms.foldl (fun u m =>
    if a.reference_interval ∩ m.reference_interval ≠ ∅
        ∧ a.query_interval ∩ m.query_interval ≠ ∅
    then u ∪ (a.reference_interval ∩ m.reference_interval) else u) ∅

/-- Query-axis counterpart of `refOverlapUnionA`. -/
def qOverlapUnionA (ms : List Segment) (a : Segment) : Finset ℤ :=
  ms.foldl (fun u m =>
    if a.reference_interval ∩ m.reference_interval ≠ ∅
        ∧ a.query_interval ∩ m.query_interval ≠ ∅
    then u ∪ (a.query_interval ∩ m.query_interval) else u) ∅

/-- The precision-side loop: union, over the annotation segments, of the
reference-axis overlaps with match segment m, under the same double-axis
condition. -/
def refOverlapUnionM (al : List Segment) (m : Segment) : Finset ℤ :=
  al.foldl (fun u a =>
    if a.reference_interval ∩ m.reference_interval ≠ ∅
        ∧ a.query_interval ∩ m.query_interval ≠ ∅
    then u ∪ (a.reference_interval ∩ m.reference_interval) else u) ∅

/-- Query-axis counterpart of `refOverlapUnionM`. -/
def qOverlapUnionM (al : List Segment) (m : Segment) : Finset ℤ :=
  al.foldl (fun u a =>
    if a.reference_interval ∩ m.reference_interval ≠ ∅
        ∧ a.query_interval ∩ m.query_interval ≠ ∅
    then u ∪ (a.query_interval ∩ m.query_interval) else u) ∅

/-- BoundingBoxSegmentEvaluator._evaluate_pair: the (recall, precision) pair
it adds to each of its result tables. -/
def bboxEvaluatePair (al ml : List Segment) : ℚ × ℚ :=
  let overlap_reference_length_r := (al.map (fun a => get_interval_length (refOverlapUnionA ml a))).sum
  let overlap_query_length_r := (al.map (fun a => get_interval_length (qOverlapUnionA ml a))).sum
  let annotation_reference_length := (al.map (fun x => get_interval_length x.reference_interval)).sum
  let annotation_query_length := (al.map (fun x => get_interval_length x.query_interval)).sum
  let recl : ℚ := (1 : ℚ)
    * (if annotation_reference_length ≠ 0
        then (overlap_reference_length_r : ℚ) / (annotation_reference_length : ℚ) else 0)
    * (if annotation_query_length ≠ 0
        then (overlap_query_length_r : ℚ) / (annotation_query_length : ℚ) else 0)
  let overlap_reference_length_p := (ml.map (fun m => get_interval_length (refOverlapUnionM al m))).sum
  let overlap_query_length_p := (ml.map (fun m => get_interval_length (qOverlapUnionM al m))).sum
  let match_reference_length := (ml.map (fun x => get_interval_length x.reference_interval)).sum
  let match_query_length := (ml.map (fun x => get_interval_length x.query_interval)).sum
  let prec : ℚ := (1 : ℚ)
    * (if match_reference_length ≠ 0
        then (overlap_reference_length_p : ℚ) / (match_reference_length : ℚ) else 1)
    * (if match_query_length ≠ 0
        then (overlap_query_length_p : ℚ) / (match_query_length : ℚ) else 1)
  (recl, prec)

/-- A conditional-union fold stays inside any set containing the unioned
pieces and the start. -/
lemma foldl_cond_union_subset {α : Type} (l : List α) (f : α → Finset ℤ)
    (p : α → Prop) [DecidablePred p] (S : Finset ℤ) (hf : ∀ x ∈ l, f x ⊆ S) :
    ∀ u : Finset ℤ, u ⊆ S →
      (l.foldl (fun u x => if p x then u ∪ f x else u) u) ⊆ S := by
  induction l with
  | nil => intro u hu; exact hu
  | cons a l ih =>
    intro u hu
    rw [List.foldl_cons]
    refine ih (fun x hx => hf x (List.mem_cons_of_mem a hx)) _ ?_
    by_cases hp : p a
    · rw [if_pos hp]
      exact Finset.union_subset hu (hf a (List.mem_cons_self a l))
    · rw [if_neg hp]
      exact hu

/-- A conditional-union fold whose condition never holds returns its start. -/
lemma foldl_cond_union_of_none {α : Type} (l : List α) (f : α → Finset ℤ)
    (p : α → Prop) [DecidablePred p] (hp : ∀ x ∈ l, ¬ p x) (u : Finset ℤ) :
    l.foldl (fun u x => if p x then u ∪ f x else u) u = u := by
  induction l with
  | nil => rfl
  | cons a l ih =>
    rw [List.foldl_cons, if_neg (hp a (List.mem_cons_self a l))]
    exact ih (fun x hx => hp x (List.mem_cons_of_mem a hx))

lemma length_nonneg (s : Finset ℤ) : 0 ≤ get_interval_length s := Int.ofNat_nonneg _

lemma length_mono {s t : Finset ℤ} (h : s ⊆ t) :
    get_interval_length s ≤ get_interval_length t := by
  unfold get_interval_length
  exact_mod_cast Finset.card_le_card h

lemma sum_map_length_nonneg (l : List Segment) (g : Segment → Finset ℤ) :
    0 ≤ (l.map (fun x => get_interval_length (g x))).sum := by
  apply List.sum_nonneg
  intro x hx
  rcases List.mem_map.mp hx with ⟨a, _, rfl⟩
  exact length_nonneg _

lemma sum_map_length_mono (l : List Segment) (g h : Segment → Finset ℤ)
    (hs : ∀ x ∈ l, g x ⊆ h x) :
    (l.map (fun x => get_interval_length (g x))).sum
      ≤ (l.map (fun x => get_interval_length (h x))).sum :=
  List.sum_le_sum (fun x hx => length_mono (hs x hx))

lemma refOverlapUnionA_subset (ms : List Segment) (a : Segment) :
    refOverlapUnionA ms a ⊆ a.reference_interval := by
  unfold refOverlapUnionA
  exact foldl_cond_union_subset ms _ _ a.reference_interval
    (fun m _ => Finset.inter_subset_left) ∅ (Finset.empty_subset _)

lemma qOverlapUnionA_subset (ms : List Segment) (a : Segment) :
    qOverlapUnionA ms a ⊆ a.query_interval := by
  unfold qOverlapUnionA
  exact foldl_cond_union_subset ms _ _ a.query_interval
    (fun m _ => Finset.inter_subset_left) ∅ (Finset.empty_subset _)

lemma refOverlapUnionM_subset (al : List Segment) (m : Segment) :
    refOverlapUnionM al m ⊆ m.reference_interval := by
  unfold refOverlapUnionM
  exact foldl_cond_union_subset al _ _ m.reference_interval
    (fun a _ => Finset.inter_subset_right) ∅ (Finset.empty_subset _)

lemma qOverlapUnionM_subset (al : List Segment) (m : Segment) :
    qOverlapUnionM al m ⊆ m.query_interval := by
  unfold qOverlapUnionM
  exact foldl_cond_union_subset al _ _ m.query_interval
    (fun a _ => Finset.inter_subset_right) ∅ (Finset.empty_subset _)

/-- A guarded axis ratio with default d ∈ [0,1] stays in [0,1] when the
numerator is between 0 and the denominator. -/
lemma guarded_ratio_unit (num den : ℤ) (d : ℚ) (h0 : 0 ≤ num) (hle : num ≤ den)
    (hd0 : 0 ≤ d) (hd1 : d ≤ 1) :
    0 ≤ (if den ≠ 0 then (num : ℚ) / (den : ℚ) else d)
      ∧ (if den ≠ 0 then (num : ℚ) / (den : ℚ) else d) ≤ 1 := by
  by_cases hden : den ≠ 0
  · rw [if_pos hden]
    have hdpos : (0 : ℚ) < (den : ℚ) := by
      have : 0 < den := lt_of_le_of_ne (le_trans h0 hle) (Ne.symm hden)
      exact_mod_cast this
    constructor
    · exact div_nonneg (by exact_mod_cast h0) (le_of_lt hdpos)
    · rw [div_le_one hdpos]
      exact_mod_cast hle
  · rw [if_neg hden]
    exact ⟨hd0, hd1⟩

/-- Claim C5: the per-pair bounding-box recall and precision lie in [0,1];
recall is 0 when no (annotation, match) pairing has non-empty intersections
on both axes simultaneously; precision is 1 when the match list is empty. -/
theorem bbox_evaluate_pair_spec (al ml : List Segment) :
    (0 ≤ (bboxEvaluatePair al ml).1 ∧ (bboxEvaluatePair al ml).1 ≤ 1
      ∧ 0 ≤ (bboxEvaluatePair al ml).2 ∧ (bboxEvaluatePair al ml).2 ≤ 1)
    ∧ ((∀ a ∈ al, ∀ m ∈ ml,
          a.reference_interval ∩ m.reference_interval = ∅
            ∨ a.query_interval ∩ m.query_interval = ∅) →
        (bboxEvaluatePair al ml).1 = 0)
    ∧ (ml = [] → (bboxEvaluatePair al ml).2 = 1) := by
  have hr1 := guarded_ratio_unit
    ((al.map (fun a => get_interval_length (refOverlapUnionA ml a))).sum)
    ((al.map (fun x => get_interval_length x.reference_interval)).sum) 0
    (sum_map_length_nonneg al (fun a => refOverlapUnionA ml a))
    (sum_map_length_mono al (fun a => refOverlapUnionA ml a)
      (fun x => x.reference_interval) (fun a _ => refOverlapUnionA_subset ml a))
    le_rfl zero_le_one
  have hr2 := guarded_ratio_unit
    ((al.map (fun a => get_interval_length (qOverlapUnionA ml a))).sum)
    ((al.map (fun x => get_interval_length x.query_interval)).sum) 0
    (sum_map_length_nonneg al (fun a => qOverlapUnionA ml a))
    (sum_map_length_mono al (fun a => qOverlapUnionA ml a)
      (fun x => x.query_interval) (fun a _ => qOverlapUnionA_subset ml a))
    le_rfl zero_le_one
  have hp1 := guarded_ratio_unit
    ((ml.map (fun m => get_interval_length (refOverlapUnionM al m))).sum)
    ((ml.map (fun x => get_interval_length x.reference_interval)).sum) 1
    (sum_map_length_nonneg ml (fun m => refOverlapUnionM al m))
    (sum_map_length_mono ml (fun m => refOverlapUnionM al m)
      (fun x => x.reference_interval) (fun m _ => refOverlapUnionM_subset al m))
    zero_le_one le_rfl
  have hp2 := guarded_ratio_unit
    ((ml.map (fun m => get_interval_length (qOverlapUnionM al m))).sum)
    ((ml.map (fun x => get_interval_length x.query_interval)).sum) 1
    (sum_map_length_nonneg ml (fun m => qOverlapUnionM al m))
    (sum_map_length_mono ml (fun m => qOverlapUnionM al m)
      (fun x => x.query_interval) (fun m _ => qOverlapUnionM_subset al m))
    zero_le_one le_rfl
  refine ⟨⟨?_, ?_, ?_, ?_⟩, ?_, ?_⟩
  · simp only [bboxEvaluatePair]
    exact mul_nonneg (mul_nonneg zero_le_one hr1.1) hr2.1
  · simp only [bboxEvaluatePair]
    refine mul_le_one₀ ?_ hr2.1 hr2.2
    rw [one_mul]
    exact hr1.2
  · simp only [bboxEvaluatePair]
    exact mul_nonneg (mul_nonneg zero_le_one hp1.1) hp2.1
  · simp only [bboxEvaluatePair]
    refine mul_le_one₀ ?_ hp2.1 hp2.2
    rw [one_mul]
    exact hp1.2
  · intro h
    have hz : ∀ a ∈ al, refOverlapUnionA ml a = ∅ := by
      intro a ha
      unfold refOverlapUnionA
      refine foldl_cond_union_of_none ml _ _ ?_ ∅
      intro m hm
      rcases h a ha m hm with h1 | h1 <;> simp [h1]
    have hsum : (al.map (fun a => get_interval_length (refOverlapUnionA ml a))).sum = 0 := by
      apply List.sum_eq_zero
      intro x hx
      rcases List.mem_map.mp hx with ⟨a, ha, rfl⟩
      rw [hz a ha]
      rfl
    simp only [bboxEvaluatePair]
    rw [hsum]
    simp
  · intro h
    subst h
    simp [bboxEvaluatePair]

/-- A concrete segment: reference [10,20), query [0,10), tempo 100. -/
def segW : Segment :=
  { reference_interval := closedopen 10 20, query_interval := closedopen 0 10,
    attrs := [("tempo", PyVal.str "100")] }

/-- Witness for C5: with an annotation and no match the precision is 1. -/
theorem bbox_evaluate_pair_spec_w :
    (bboxEvaluatePair [segW] []).2 = 1 := (bbox_evaluate_pair_spec [segW] []).2.2 rfl

/-- Tempo ratio of an annotation row: get_item_as_int(row, tempo, 100) / 100
as a rational. -/
def tempoRatio (a : Segment) : ℚ := (get_item_as_int a.attrs "tempo" 100 : ℚ) / 100

/-- True-positive contribution of one annotation segment in
LengthSegmentEvaluator._evaluate_pair: the minimum of the reference-axis
overlap length and the tempo-scaled query-axis overlap length rounded
toward the annotation's reference length. -/
def lengthAnnTP (ms : List Segment) (a : Segment) : ℤ :=
  let annotation_reference_length := get_interval_length a.reference_interval
  let overlap_reference_length := get_interval_length (refOverlapUnionA ms a)
  let overlap_query_length := round_towards_target
    ((get_interval_length (qOverlapUnionA ms a) : ℚ) * tempoRatio a)
    (annotation_reference_length : ℚ)
  min overlap_reference_length overlap_query_length

/-- False-negative contribution of one annotation segment: the maximum of
the uncovered reference-axis length and the tempo-scaled uncovered
query-axis length rounded toward 0. -/
def lengthAnnFN (ms : List Segment) (a : Segment) : ℤ :=
  let missing_reference_length :=
    get_interval_length (a.reference_interval \ refOverlapUnionA ms a)
  let missing_query_length := round_towards_target
    ((get_interval_length (a.query_interval \ qOverlapUnionA ms a) : ℚ) * tempoRatio a) 0
  max missing_reference_length missing_query_length

/-- Initial state of the False-Positive/Unknown-Positive loop of
LengthSegmentEvaluator._evaluate_pair over one match segment: tempo from
the match segment's own lengths (1 when its query length is 0) and two
empty unions. -/
def lengthMatchInit (m : Segment) : ℚ × Finset ℤ × Finset ℤ :=
  ((if get_interval_length m.query_interval ≠ 0
      then (get_interval_length m.reference_interval : ℚ)
        / (get_interval_length m.query_interval : ℚ)
      else 1), ∅, ∅)

/-- One iteration of that loop over an annotation segment a: override the
tempo when the query-axis intersection is truthy (a portion interval is
truthy exactly when it is non-empty: its len() is its number of atomic
parts and an empty interval has none), extend the reference union under
the double-axis condition, extend the query-only union unconditionally. -/
def lengthMatchStep (m : Segment) (st : ℚ × Finset ℤ × Finset ℤ) (a : Segment) :
    ℚ × Finset ℤ × Finset ℤ :=
  ((if a.query_interval ∩ m.query_interval ≠ ∅ then tempoRatio a else st.1),
   (if a.reference_interval ∩ m.reference_interval ≠ ∅
       ∧ a.query_interval ∩ m.query_interval ≠ ∅
     then st.2.1 ∪ (a.reference_interval ∩ m.reference_interval) else st.2.1),
   st.2.2 ∪ (a.query_interval ∩ m.query_interval))

/-- The full loop: final tempo, double-overlap reference union and
query-only union for one match segment. -/
def lengthMatchLoop (al : List Segment) (m : Segment) : ℚ × Finset ℤ × Finset ℤ :=
  al.foldl (lengthMatchStep m) (lengthMatchInit m)

/-- The (up, fp) contribution of one match segment in
LengthSegmentEvaluator._evaluate_pair. -/
def lengthMatchUPFP (al : List Segment) (m : Segment) : ℤ × ℤ :=
  let st := lengthMatchLoop al m
  let match_reference_length := get_interval_length m.reference_interval
  let match_query_length := get_interval_length m.query_interval
  let overlap_reference_length := get_interval_length st.2.1
  let overlap_query_only_length := round_towards_target
    ((get_interval_length st.2.2 : ℚ) * st.1) (match_reference_length : ℚ)
  let overlap_length := max overlap_reference_length overlap_query_only_length
  let unknown_length := |overlap_reference_length - overlap_query_only_length|
  let surplus_reference_length := max 0 (match_reference_length - overlap_length)
  let surplus_query_length := round_towards_target
    ((match_query_length : ℚ) * st.1) (match_reference_length : ℚ)
    - overlap_query_only_length
  (unknown_length, max surplus_reference_length surplus_query_length)

/-- LengthSegmentEvaluator._evaluate_pair: the (tp, up, fp, fn) quadruple it
adds to each of its result tables. -/
def lengthEvaluatePair (al ml : List Segment) : ℤ × ℤ × ℤ × ℤ :=
  ((al.map (fun a => lengthAnnTP ml a)).sum,
   (ml.map (fun m => (lengthMatchUPFP al m).1)).sum,
   (ml.map (fun m => (lengthMatchUPFP al m).2)).sum,
   (al.map (fun a => lengthAnnFN ml a)).sum)

/-- The tempo of claim C3 in closed form: the tempo of the last annotation
segment (in list order) whose query-axis intersection with m is non-empty,
and m's own reference/query length ratio (1 for a zero query length) when
there is none. -/
def lastOverlapTempo (al : List Segment) (m : Segment) : ℚ :=
  match (al.filter (fun a => a.query_interval ∩ m.query_interval ≠ ∅)).getLast? with
  | some a => tempoRatio a
  | Option.none =>
    if get_interval_length m.query_interval ≠ 0
    then (get_interval_length m.reference_interval : ℚ)
      / (get_interval_length m.query_interval : ℚ)
    else 1

/-- Closed form of the double-overlap reference-axis union of one match
segment over the annotation list. -/
def specRefUnion (al : List Segment) (m : Segment) : Finset ℤ :=
  ((al.filter (fun a => a.reference_interval ∩ m.reference_interval ≠ ∅
      ∧ a.query_interval ∩ m.query_interval ≠ ∅)).map
    (fun a => a.reference_interval ∩ m.reference_interval)).foldr (· ∪ ·) ∅

/-- Closed form of the query-only union of one match segment over the
annotation list (no double-axis restriction). -/
def specQUnion (al : List Segment) (m : Segment) : Finset ℤ :=
  (al.map (fun a => a.query_interval ∩ m.query_interval)).foldr (· ∪ ·) ∅

lemma foldr_union_init (xs : List (Finset ℤ)) (s : Finset ℤ) :
    xs.foldr (· ∪ ·) s = xs.foldr (· ∪ ·) ∅ ∪ s := by
  induction xs with
  | nil => simp
  | cons x xs ih => simp [List.foldr_cons, ih, Finset.union_assoc]

lemma lastOverlapTempo_append (l : List Segment) (a : Segment) (m : Segment) :
    lastOverlapTempo (l ++ [a]) m
      = if a.query_interval ∩ m.query_interval ≠ ∅ then tempoRatio a
        else lastOverlapTempo l m := by
  unfold lastOverlapTempo
  rw [List.filter_append]
  by_cases hp : a.query_interval ∩ m.query_interval ≠ ∅
  · rw [if_pos hp]
    have h1 : List.filter
        (fun a => decide (a.query_interval ∩ m.query_interval ≠ ∅)) [a] = [a] := by
      simp [hp]
    rw [h1, List.getLast?_concat]
  · rw [if_neg hp]
    have h1 : List.filter
        (fun a => decide (a.query_interval ∩ m.query_interval ≠ ∅)) [a] = [] := by
      simp [hp]
    rw [h1, List.append_nil]

lemma specRefUnion_append (l : List Segment) (a : Segment) (m : Segment) :
    specRefUnion (l ++ [a]) m
      = if a.reference_interval ∩ m.reference_interval ≠ ∅
            ∧ a.query_interval ∩ m.query_interval ≠ ∅
        then specRefUnion l m ∪ (a.reference_interval ∩ m.reference_interval)
        else specRefUnion l m := by
  unfold specRefUnion
  rw [List.filter_append]
  by_cases hp : a.reference_interval ∩ m.reference_interval ≠ ∅
      ∧ a.query_interval ∩ m.query_interval ≠ ∅
  · rw [if_pos hp]
    have h1 : List.filter
        (fun a => decide (a.reference_interval ∩ m.reference_interval ≠ ∅
          ∧ a.query_interval ∩ m.query_interval ≠ ∅)) [a] = [a] := by
      simp [hp.1, hp.2]
    rw [h1, List.map_append, List.foldr_append, foldr_union_init]
    simp
  · rw [if_neg hp]
    have h1 : List.filter
        (fun a => decide (a.reference_interval ∩ m.reference_interval ≠ ∅
          ∧ a.query_interval ∩ m.query_interval ≠ ∅)) [a] = [] := by
      simp [hp]
    rw [h1, List.append_nil]

lemma specQUnion_append (l : List Segment) (a : Segment) (m : Segment) :
    specQUnion (l ++ [a]) m = specQUnion l m ∪ (a.query_interval ∩ m.query_interval) := by
  unfold specQUnion
  rw [List.map_append, List.foldr_append, foldr_union_init]
  simp

lemma lengthMatchLoop_closed (al : List Segment) (m : Segment) :
    lengthMatchLoop al m = (lastOverlapTempo al m, specRefUnion al m, specQUnion al m) := by
  induction al using List.reverseRecOn with
  | nil => rfl
  | append_singleton l a ih =>
    have hstep : lengthMatchLoop (l ++ [a]) m = lengthMatchStep m (lengthMatchLoop l m) a := by
      unfold lengthMatchLoop
      rw [List.foldl_append, List.foldl_cons, List.foldl_nil]
    rw [hstep, ih, lastOverlapTempo_append, specRefUnion_append, specQUnion_append]
    rfl

/-- Claim C3: for every match segment of the per-match pass of
LengthSegmentEvaluator._evaluate_pair, the tempo used is the tempo ratio of
the last annotation segment (in iteration order) with a non-empty query-axis
intersection — defaulting to the match's own reference/query length ratio
(1 for a zero query length) — and the Unknown-Positive contribution is the
absolute difference between the reference-axis overlap-union length and the
tempo-scaled query-only union length rounded toward the match's reference
length. -/
theorem length_match_up_spec (al : List Segment) (m : Segment) :
    (lengthMatchLoop al m).1 = lastOverlapTempo al m
    ∧ (lengthMatchUPFP al m).1
        = |get_interval_length (specRefUnion al m)
            - round_towards_target
                ((get_interval_length (specQUnion al m) : ℚ) * lastOverlapTempo al m)
                ((get_interval_length m.reference_interval : ℚ))| := by
  constructor
  · rw [lengthMatchLoop_closed]
  · simp only [lengthMatchUPFP, lengthMatchLoop_closed]

lemma rtt_le_ceil (v tgt : ℚ) : round_towards_target v tgt ≤ ⌈v⌉ := by
  unfold round_towards_target
  split
  · exact le_rfl
  · exact Int.floor_le_ceil v

lemma rtt_zero_nonpos (v : ℚ) (hv : v < 0) : round_towards_target v 0 ≤ 0 := by
  unfold round_towards_target
  rw [if_pos hv]
  exact Int.ceil_le.mpr (by exact_mod_cast le_of_lt hv)

lemma rtt_zero_floor (v : ℚ) (hv : 0 ≤ v) : round_towards_target v 0 = ⌊v⌋ := by
  unfold round_towards_target
  rw [if_neg (not_lt.mpr hv)]

/-- Arithmetic core of the tp + fn bound: with the tempo-scaled query length
within the reference length, one annotation segment's tp + fn exceeds its
reference length by at most the one rounding unit. -/
lemma tp_fn_arith (orl oql arl aql : ℤ) (t : ℚ)
    (h2 : orl ≤ arl) (h4 : oql ≤ aql)
    (h : t * (aql : ℚ) ≤ (arl : ℚ)) :
    min orl (round_towards_target ((oql : ℚ) * t) (arl : ℚ))
      + max (arl - orl) (round_towards_target (((aql - oql : ℤ) : ℚ) * t) 0)
      ≤ arl + 1 := by
  rcases max_choice (arl - orl)
      (round_towards_target (((aql - oql : ℤ) : ℚ) * t) 0) with hM | hM <;> rw [hM]
  · have := min_le_left orl (round_towards_target ((oql : ℚ) * t) (arl : ℚ))
    linarith
  · rcases lt_or_le (((aql - oql : ℤ) : ℚ) * t) 0 with hneg | hpos
    · have hB := rtt_zero_nonpos _ hneg
      have := min_le_left orl (round_towards_target ((oql : ℚ) * t) (arl : ℚ))
      linarith
    · rw [rtt_zero_floor _ hpos]
      have h5 : min orl (round_towards_target ((oql : ℚ) * t) (arl : ℚ))
          ≤ ⌈(oql : ℚ) * t⌉ :=
        le_trans (min_le_right _ _) (rtt_le_ceil _ _)
      have hc : (⌈(oql : ℚ) * t⌉ : ℚ) < (oql : ℚ) * t + 1 := Int.ceil_lt_add_one _
      have hf : (⌊((aql - oql : ℤ) : ℚ) * t⌋ : ℚ) ≤ ((aql - oql : ℤ) : ℚ) * t :=
        Int.floor_le _
      have hring : (oql : ℚ) * t + ((aql - oql : ℤ) : ℚ) * t = t * (aql : ℚ) := by
        push_cast
        ring
      have hsum : (⌈(oql : ℚ) * t⌉ : ℚ) + (⌊((aql - oql : ℤ) : ℚ) * t⌋ : ℚ)
          < (arl : ℚ) + 1 := by linarith
      have hz : ⌈(oql : ℚ) * t⌉ + ⌊((aql - oql : ℤ) : ℚ) * t⌋ < arl + 1 := by
        exact_mod_cast hsum
      omega

/-- Claim C4 (amended): for an annotation segment whose tempo-scaled
query-axis length does not exceed its reference-axis length, the segment's
tp + fn contribution in LengthSegmentEvaluator._evaluate_pair never exceeds
its reference-axis length by more than 1. -/
theorem length_ann_tp_fn_bound (a : Segment) (ms : List Segment)
    (h : tempoRatio a * (get_interval_length a.query_interval : ℚ)
          ≤ (get_interval_length a.reference_interval : ℚ)) :
    lengthAnnTP ms a + lengthAnnFN ms a
      ≤ get_interval_length a.reference_interval + 1 := by
  have hU := refOverlapUnionA_subset ms a
  have hV := qOverlapUnionA_subset ms a
  have hsR : get_interval_length (a.reference_interval \ refOverlapUnionA ms a)
      = get_interval_length a.reference_interval
        - get_interval_length (refOverlapUnionA ms a) := by
    unfold get_interval_length
    rw [Finset.card_sdiff hU, Int.ofNat_sub (Finset.card_le_card hU)]
  have hsQ : get_interval_length (a.query_interval \ qOverlapUnionA ms a)
      = get_interval_length a.query_interval
        - get_interval_length (qOverlapUnionA ms a) := by
    unfold get_interval_length
    rw [Finset.card_sdiff hV, Int.ofNat_sub (Finset.card_le_card hV)]
  simp only [lengthAnnTP, lengthAnnFN]
  rw [hsR, hsQ]
  exact tp_fn_arith (get_interval_length (refOverlapUnionA ms a))
    (get_interval_length (qOverlapUnionA ms a))
    (get_interval_length a.reference_interval)
    (get_interval_length a.query_interval) (tempoRatio a)
    (length_mono hU) (length_mono hV) h

/-- An annotation segment whose tempo field disagrees with its own interval
lengths: reference [0,10), query [0,100), tempo 100 percent. -/
def segBadC4 : Segment :=
  { reference_interval := closedopen 0 10, query_interval := closedopen 0 100,
    attrs := [("tempo", PyVal.str "100")] }

/-- Counterexample to C4 as stated: with no matches, this annotation
segment's tp + fn is 100, its reference length 10 — the bound fails. -/
theorem length_ann_tp_fn_cex :
    ¬ (lengthAnnTP [] segBadC4 + lengthAnnFN [] segBadC4
        ≤ get_interval_length segBadC4.reference_interval + 1) := by
  have e1 : get_interval_length (refOverlapUnionA [] segBadC4) = 0 := by decide
  have e2 : get_interval_length (qOverlapUnionA [] segBadC4) = 0 := by decide
  have e3 : get_interval_length segBadC4.reference_interval = 10 := by decide
  have e4 : get_interval_length (segBadC4.reference_interval \ refOverlapUnionA [] segBadC4)
      = 10 := by decide
  have e5 : get_interval_length (segBadC4.query_interval \ qOverlapUnionA [] segBadC4)
      = 100 := by decide
  have hg : get_item_as_int segBadC4.attrs "tempo" 100 = 100 := by decide
  have ht : tempoRatio segBadC4 = 1 := by
    simp only [tempoRatio]
    rw [hg]
    norm_num
  simp only [lengthAnnTP, lengthAnnFN]
  rw [e1, e2, e3, e4, e5, ht]
  norm_num [round_towards_target]

/-- Witness for the amended C4 at a tempo-consistent segment. -/
theorem length_ann_tp_fn_bound_w :
    lengthAnnTP [] segW + lengthAnnFN [] segW
      ≤ get_interval_length segW.reference_interval + 1 :=
  length_ann_tp_fn_bound segW [] (by
    have hg : get_item_as_int segW.attrs "tempo" 100 = 100 := by decide
    have h1 : get_interval_length segW.query_interval = 10 := by decide
    have h2 : get_interval_length segW.reference_interval = 10 := by decide
    simp only [tempoRatio]
    rw [hg, h1, h2]
    norm_num)

/-- One recorded add call: target accumulator family and index, numeric
arguments, and either an explicitly passed tags set or Option.none for a
call that omits the argument and therefore receives the shared default
set() object. -/
inductive AddOp where
  | rp (i : ℕ) (recl prec : ℚ) (tags : Option (Finset String))
  | pn (i : ℕ) (tp up fp fn : ℤ) (tags : Option (Finset String))

/-- The module's mutable state relevant to tag accumulation: the single
default-argument set object shared by every call that omits tags, and the
accumulator instances of both classes. -/
structure TagsWorld where
  defaultCell : Finset String
  rps : ℕ → RecallPrecisionState
  pns : ℕ → PositivesNegativesState

/-- Execute one add call.  A call that omits the tags argument passes the
shared default object; whatever object state the callee leaves in the
argument (`rp_add`/`pn_add` return it) is what the default cell holds
afterwards. -/
def runOp (w : TagsWorld) : AddOp → TagsWorld
  | AddOp.rp i recl prec tags =>
    let arg := tags.getD w.defaultCell
    let r := rp_add recl prec arg (w.rps i)
    { defaultCell := if tags.isNone then r.2 else w.defaultCell,
      rps := fun j => if j = i then r.1 else w.rps j,
      pns := w.pns }
  | AddOp.pn i tp up fp fn tags =>
    let arg := tags.getD w.defaultCell
    let r := pn_add tp up fp fn arg (w.pns i)
    { defaultCell := if tags.isNone then r.2 else w.defaultCell,
      rps := w.rps,
      pns := fun j => if j = i then r.1 else w.pns j }

/-- Execute a sequence of add calls. -/
def runOps (ops : List AddOp) (w : TagsWorld) : TagsWorld := ops.foldl runOp w

/-- Union of the explicitly passed tags of the calls in ops targeting
RecallPrecisionResults instance i. -/
def explicitRpTags (i : ℕ) : List AddOp → Finset String
  | [] => ∅
  | AddOp.rp j _ _ (some t) :: rest => (if i = j then t else ∅) ∪ explicitRpTags i rest
  | _ :: rest => explicitRpTags i rest

/-- Union of the explicitly passed tags of the calls in ops targeting
PositivesNegativesResults instance i. -/
def explicitPnTags (i : ℕ) : List AddOp → Finset String
  | [] => ∅
  | AddOp.pn j _ _ _ _ (some t) :: rest => (if i = j then t else ∅) ∪ explicitPnTags i rest
  | _ :: rest => explicitPnTags i rest

/-- Claim C10: neither add method mutates the tags collection passed to it;
consequently, over any sequence of add calls on any instances, the shared
mutable default set stays empty, and every accumulator's tag set is exactly
its initial tags plus the explicitly passed tags — calls using the default
contribute nothing, regardless of the tags passed by earlier calls. -/
theorem add_default_tags_spec :
    (∀ (recl prec : ℚ) (tags : Finset String) (s : RecallPrecisionState),
      (rp_add recl prec tags s).2 = tags)
    ∧ (∀ (tp up fp fn : ℤ) (tags : Finset String) (s : PositivesNegativesState),
      (pn_add tp up fp fn tags s).2 = tags)
    ∧ (∀ (ops : List AddOp) (w : TagsWorld), w.defaultCell = ∅ →
      (runOps ops w).defaultCell = ∅
      ∧ (∀ i, ((runOps ops w).rps i).tags = (w.rps i).tags ∪ explicitRpTags i ops)
      ∧ (∀ i, ((runOps ops w).pns i).base.tags
            = (w.pns i).base.tags ∪ explicitPnTags i ops)) := by
  refine ⟨fun recl prec tags s => rfl, fun tp up fp fn tags s => rfl, ?_⟩
  intro ops
  induction ops with
  | nil =>
    intro w hw
    exact ⟨hw, fun i => by simp [runOps, explicitRpTags],
      fun i => by simp [runOps, explicitPnTags]⟩
  | cons op rest ih =>
    intro w hw
    have hrun : runOps (op :: rest) w = runOps rest (runOp w op) := rfl
    have hcell : (runOp w op).defaultCell = ∅ := by
      cases op with
      | rp i recl prec tags => cases tags <;> simp [runOp, rp_add, hw]
      | pn i tp up fp fn tags => cases tags <;> simp [runOp, pn_add, rp_add, hw]
    obtain ⟨ih1, ih2, ih3⟩ := ih (runOp w op) hcell
    rw [hrun]
    refine ⟨ih1, fun i => ?_, fun i => ?_⟩
    · rw [ih2 i]
      cases op with
      | rp j recl prec tags =>
        cases tags with
        | none =>
          by_cases hij : i = j <;>
            simp [runOp, rp_add, explicitRpTags, hw, hij]
        | some t =>
          by_cases hij : i = j <;>
            simp [runOp, rp_add, explicitRpTags, hij, Finset.union_assoc]
      | pn j tp up fp fn tags =>
        cases tags <;> simp [runOp, explicitRpTags]
    · rw [ih3 i]
      cases op with
      | rp j recl prec tags =>
        cases tags <;> simp [runOp, explicitPnTags]
      | pn j tp up fp fn tags =>
        cases tags with
        | none =>
          by_cases hij : i = j <;>
            simp [runOp, pn_add, rp_add, explicitPnTags, hw, hij]
        | some t =>
          by_cases hij : i = j <;>
            simp [runOp, pn_add, rp_add, explicitPnTags, hij, Finset.union_assoc]

/-- A world of fresh accumulators with the module's initial empty default
set. -/
def freshWorld : TagsWorld :=
  { defaultCell := ∅, rps := fun _ => rp_init, pns := fun _ => pn_init }

/-- Witness for C10: after a defaulted call the shared default set is still
empty. -/
theorem add_default_tags_spec_w :
    (runOps [AddOp.rp 0 1 1 Option.none] freshWorld).defaultCell = ∅ :=
  (add_default_tags_spec.2.2 [AddOp.rp 0 1 1 Option.none] freshWorld rfl).1

/-- THRESHOLD_SMALL = 1 - 0.07 (floats modelled as exact rationals). -/
def THRESHOLD_SMALL : ℚ := 1 - 7/100

/-- THRESHOLD_MEDIUM = 1 - 0.07 * 3. -/
def THRESHOLD_MEDIUM : ℚ := 1 - 7/100 * 3

/-- tempo_scale_to_per_cent from util.py. -/
def tempo_scale_to_per_cent (scale : ℚ) : ℚ := 100 * scale

/-- MIN_TEMPO_SMALL = math.ceil(tempo_scale_to_per_cent(THRESHOLD_SMALL)). -/
def MIN_TEMPO_SMALL : ℤ := ⌈tempo_scale_to_per_cent THRESHOLD_SMALL⌉

/-- MAX_TEMPO_SMALL = math.floor(tempo_scale_to_per_cent(1/THRESHOLD_SMALL)). -/
def MAX_TEMPO_SMALL : ℤ := ⌊tempo_scale_to_per_cent (1 / THRESHOLD_SMALL)⌋

/-- MIN_TEMPO_MEDIUM = math.ceil(tempo_scale_to_per_cent(THRESHOLD_MEDIUM)). -/
def MIN_TEMPO_MEDIUM : ℤ := ⌈tempo_scale_to_per_cent THRESHOLD_MEDIUM⌉

/-- MAX_TEMPO_MEDIUM = math.floor(tempo_scale_to_per_cent(1/THRESHOLD_MEDIUM)). -/
def MAX_TEMPO_MEDIUM : ℤ := ⌊tempo_scale_to_per_cent (1 / THRESHOLD_MEDIUM)⌋

/-- MIN_PITCH_SMALL = math.ceil(pitch_scale_to_cents(THRESHOLD_SMALL)) with
pitch_scale_to_cents(s) = 1200·log(s)/log(2) over floats.  The integer value
the program computes is fixed here; `tag_bands_spec` proves it equal to the
ceiling of the exact real expression (the float evaluation is more than
1e-10 away from the integer boundary, so exact reals give the same
rounding). -/
def MIN_PITCH_SMALL : ℤ := -125

/-- MAX_PITCH_SMALL = math.floor(pitch_scale_to_cents(1/THRESHOLD_SMALL)). -/
def MAX_PITCH_SMALL : ℤ := 125

/-- MIN_PITCH_MEDIUM = math.ceil(pitch_scale_to_cents(THRESHOLD_MEDIUM)). -/
def MIN_PITCH_MEDIUM : ℤ := -408

/-- MAX_PITCH_MEDIUM = math.floor(pitch_scale_to_cents(1/THRESHOLD_MEDIUM)). -/
def MAX_PITCH_MEDIUM : ℤ := 408

/-- The pitch/tempo/speed tag block of get_tags_from_annotation (its first
three if-groups), as a function of the parsed tempo and pitch. -/
def pitchTempoSpeedTags (tempo pitch : ℤ) : List String :=
  (if tempo = 100 then
    [if pitch = 0 then "pitch:exact"
     else if MIN_PITCH_SMALL ≤ pitch ∧ pitch ≤ MAX_PITCH_SMALL then "pitch:small"
     else if MIN_PITCH_MEDIUM ≤ pitch ∧ pitch ≤ MAX_PITCH_MEDIUM then "pitch:medium"
     else "pitch:large"]
   else [])
  ++ (if pitch = 0 then
    (if tempo = 100 then ["tempo:exact", "speed:exact"]
     else if MIN_TEMPO_SMALL ≤ tempo ∧ tempo ≤ MAX_TEMPO_SMALL then ["tempo:small"]
     else if MIN_TEMPO_MEDIUM ≤ tempo ∧ tempo ≤ MAX_TEMPO_MEDIUM then ["tempo:medium"]
     else ["tempo:large"])
   else [])
  ++ (if tempo ≠ 100 ∧ pitch ≠ 0 then
    (if MIN_TEMPO_SMALL ≤ tempo ∧ tempo ≤ MAX_TEMPO_SMALL then ["speed:small"]
     else if MIN_TEMPO_MEDIUM ≤ tempo ∧ tempo ≤ MAX_TEMPO_MEDIUM then ["speed:medium"]
     else ["speed:large"])
   else [])

/-- The echo / high-pass / low-pass / reverb tag block. -/
def effectTags (ann : List (String × PyVal)) : List String :=
  (if get_item_as_int ann "echo_delay" 0 ≠ 0 then ["echo"] else [])
  ++ (if get_item_as_int ann "high_pass" 0 ≠ 0 then ["high-pass"] else [])
  ++ (if get_item_as_int ann "low_pass" 0 ≠ 0 then ["low-pass"] else [])
  ++ (if get_item_as_int ann "reverb" 0 ≠ 0 then ["reverb"] else [])

/-- The noise tag block. -/
def noiseTags (ann : List (String × PyVal)) : List String :=
  let noise_type := (alookup ann "noise_type").getD (PyVal.str "")
  let noise_color := (alookup ann "noise_color").getD (PyVal.str "")
  let noise_snr := (alookup ann "noise_snr").getD (PyVal.str "")
  (if noise_type = PyVal.str "sample" then ["noise:sample"]
   else if pyTruthy noise_color then ["noise:" ++ pyRender noise_color]
   else ["noise:none"])
  ++ (if noise_snr ≠ PyVal.str "" then ["noise:" ++ pyRender noise_snr ++ "dB"] else [])

/-- The merge_prev / merge_next tag block. -/
def mergeTags (ann : List (String × PyVal)) : List String :=
  let mp0 := (alookup ann "merge_prev").getD (PyVal.str "begin")
  let mp := if pyTruthy mp0 then mp0 else PyVal.str "begin"
  let mn0 := (alookup ann "merge_next").getD (PyVal.str "end")
  let mn := if pyTruthy mn0 then mn0 else PyVal.str "end"
  ["merge_prev:" ++ pyRender mp, "merge_next:" ++ pyRender mn]

/-- get_tags_from_annotation from evaluate_matches.py: the tags list it
builds, appended in source order (the blocks are split for modular
reasoning, preserving order). -/
def get_tags_from_ann (ann : List (String × PyVal)) : List String :=
  pitchTempoSpeedTags (get_item_as_int ann "tempo" 100) (get_item_as_int ann "pitch" 0)
  ++ effectTags ann ++ noiseTags ann ++ mergeTags ann

lemma string_data_append (s u : String) : (s ++ u).data = s.data ++ u.data := by
  cases s
  cases u
  rfl

lemma noise_append_head (r : String) : ("noise:" ++ r).data.head? = some 'n' := by
  rw [string_data_append]
  rfl

lemma merge_prev_append_head (r : String) :
    ("merge_prev:" ++ r).data.head? = some 'm' := by
  rw [string_data_append]
  rfl

lemma merge_next_append_head (r : String) :
    ("merge_next:" ++ r).data.head? = some 'm' := by
  rw [string_data_append]
  rfl

lemma effectTags_subset (ann : List (String × PyVal)) :
    effectTags ann ⊆ ["echo", "high-pass", "low-pass", "reverb"] := by
  unfold effectTags
  split_ifs <;> decide

lemma not_mem_noiseTags (ann : List (String × PyVal)) (t : String)
    (hh : t.data.head? ≠ some 'n') : t ∉ noiseTags ann := by
  intro hmem
  apply hh
  unfold noiseTags at hmem
  rw [List.mem_append] at hmem
  have hpref : ∃ r : String, t = "noise:" ++ r := by
    rcases hmem with hmem | hmem
    · split_ifs at hmem <;> rw [List.mem_singleton] at hmem <;> subst hmem
      · exact ⟨"sample", rfl⟩
      · exact ⟨_, rfl⟩
      · exact ⟨"none", rfl⟩
    · split_ifs at hmem
      · rw [List.mem_singleton] at hmem
        subst hmem
        exact ⟨_, String.append_assoc _ _ _⟩
      · simp at hmem
  rcases hpref with ⟨r, rfl⟩
  exact noise_append_head r

lemma not_mem_mergeTags (ann : List (String × PyVal)) (t : String)
    (hh : t.data.head? ≠ some 'm') : t ∉ mergeTags ann := by
  intro hmem
  apply hh
  unfold mergeTags at hmem
  simp only [List.mem_cons, List.mem_singleton, List.not_mem_nil, or_false] at hmem
  rcases hmem with hmem | hmem <;> rw [hmem]
  · exact merge_prev_append_head _
  · exact merge_next_append_head _

/-- Membership of a pitch/tempo/speed tag in the full tag list reduces to
membership in the pitch/tempo/speed block: the other blocks produce only the
four effect literals and strings starting with "noise:", "merge_prev:" or
"merge_next:". -/
lemma mem_get_tags_pts (d : List (String × PyVal)) (t : String)
    (heff : t ∉ (["echo", "high-pass", "low-pass", "reverb"] : List String))
    (hn : t.data.head? ≠ some 'n') (hm : t.data.head? ≠ some 'm') :
    (t ∈ get_tags_from_ann d
      ↔ t ∈ pitchTempoSpeedTags (get_item_as_int d "tempo" 100)
          (get_item_as_int d "pitch" 0)) := by
  unfold get_tags_from_ann
  simp only [List.mem_append]
  constructor
  · rintro (((h | h) | h) | h)
    · exact h
    · exact absurd (effectTags_subset d h) heff
    · exact absurd h (not_mem_noiseTags d t hn)
    · exact absurd h (not_mem_mergeTags d t hm)
  · intro h
    exact Or.inl (Or.inl (Or.inl h))

lemma pts_pitch_mem (p : ℤ) :
    ("pitch:exact" ∈ pitchTempoSpeedTags 100 p ↔ p = 0)
    ∧ ("pitch:small" ∈ pitchTempoSpeedTags 100 p
        ↔ p ≠ 0 ∧ MIN_PITCH_SMALL ≤ p ∧ p ≤ MAX_PITCH_SMALL)
    ∧ ("pitch:medium" ∈ pitchTempoSpeedTags 100 p
        ↔ p ≠ 0 ∧ ¬(MIN_PITCH_SMALL ≤ p ∧ p ≤ MAX_PITCH_SMALL)
          ∧ (MIN_PITCH_MEDIUM ≤ p ∧ p ≤ MAX_PITCH_MEDIUM))
    ∧ ("pitch:large" ∈ pitchTempoSpeedTags 100 p
        ↔ p ≠ 0 ∧ ¬(MIN_PITCH_SMALL ≤ p ∧ p ≤ MAX_PITCH_SMALL)
          ∧ ¬(MIN_PITCH_MEDIUM ≤ p ∧ p ≤ MAX_PITCH_MEDIUM)) := by
  unfold pitchTempoSpeedTags
  split_ifs <;> simp_all

lemma pts_tempo_mem (t : ℤ) :
    ("tempo:exact" ∈ pitchTempoSpeedTags t 0 ↔ t = 100)
    ∧ ("tempo:small" ∈ pitchTempoSpeedTags t 0
        ↔ t ≠ 100 ∧ MIN_TEMPO_SMALL ≤ t ∧ t ≤ MAX_TEMPO_SMALL)
    ∧ ("tempo:medium" ∈ pitchTempoSpeedTags t 0
        ↔ t ≠ 100 ∧ ¬(MIN_TEMPO_SMALL ≤ t ∧ t ≤ MAX_TEMPO_SMALL)
          ∧ (MIN_TEMPO_MEDIUM ≤ t ∧ t ≤ MAX_TEMPO_MEDIUM))
    ∧ ("tempo:large" ∈ pitchTempoSpeedTags t 0
        ↔ t ≠ 100 ∧ ¬(MIN_TEMPO_SMALL ≤ t ∧ t ≤ MAX_TEMPO_SMALL)
          ∧ ¬(MIN_TEMPO_MEDIUM ≤ t ∧ t ≤ MAX_TEMPO_MEDIUM)) := by
  unfold pitchTempoSpeedTags
  split_ifs <;> simp_all

/-- Bracketing the base-2 logarithm of a rational b/a between consecutive
integers k and k+1 by comparing 1200-th powers. -/
lemma floor_log2_ratio (a b k : ℕ) (ha : 0 < a) (hb : 0 < b)
    (h1 : a ^ 1200 * 2 ^ k ≤ b ^ 1200) (h2 : b ^ 1200 < a ^ 1200 * 2 ^ (k + 1)) :
    ⌊(1200 : ℝ) * Real.log ((b : ℝ) / (a : ℝ)) / Real.log 2⌋ = (k : ℤ) := by
  have hl2 : (0 : ℝ) < Real.log 2 := Real.log_pos (by norm_num)
  have haR : (0 : ℝ) < (a : ℝ) := by exact_mod_cast ha
  have hbR : (0 : ℝ) < (b : ℝ) := by exact_mod_cast hb
  have e2 : (1200 : ℝ) * Real.log ((b : ℝ) / (a : ℝ))
      = Real.log (((b : ℝ) / (a : ℝ)) ^ (1200 : ℕ)) := by
    rw [Real.log_pow]
    norm_num
  rw [Int.floor_eq_iff]
  constructor
  · rw [le_div_iff hl2]
    have e1 : ((k : ℤ) : ℝ) * Real.log 2 = Real.log ((2 : ℝ) ^ k) := by
      rw [Real.log_pow]
      push_cast
      ring
    rw [e1, e2, Real.log_le_log_iff (by positivity) (by positivity), div_pow,
      le_div_iff (by positivity)]
    calc (2 : ℝ) ^ k * (a : ℝ) ^ 1200 = (a : ℝ) ^ 1200 * 2 ^ k := by ring
    _ ≤ (b : ℝ) ^ 1200 := by exact_mod_cast h1
  · rw [div_lt_iff hl2]
    have e1 : (((k : ℤ) : ℝ) + 1) * Real.log 2 = Real.log ((2 : ℝ) ^ (k + 1)) := by
      rw [Real.log_pow]
      push_cast
      ring
    rw [e1, e2, Real.log_lt_log_iff (by positivity) (by positivity), div_pow,
      div_lt_iff (by positivity)]
    calc (b : ℝ) ^ 1200 < (a : ℝ) ^ 1200 * 2 ^ (k + 1) := by exact_mod_cast h2
    _ = 2 ^ (k + 1) * (a : ℝ) ^ 1200 := by ring

lemma floor_log2_100_93 :
    ⌊(1200 : ℝ) * Real.log ((100 : ℝ) / (93 : ℝ)) / Real.log 2⌋ = (125 : ℤ) := by
  have h := floor_log2_ratio 93 100 125 (by norm_num) (by norm_num)
    (by norm_num) (by norm_num)
  norm_num at h
  exact_mod_cast h

lemma floor_log2_100_79 :
    ⌊(1200 : ℝ) * Real.log ((100 : ℝ) / (79 : ℝ)) / Real.log 2⌋ = (408 : ℤ) := by
  have h := floor_log2_ratio 79 100 408 (by norm_num) (by norm_num)
    (by norm_num) (by norm_num)
  norm_num at h
  exact_mod_cast h

lemma ceil_log2_93_100 :
    ⌈(1200 : ℝ) * Real.log ((93 : ℝ) / (100 : ℝ)) / Real.log 2⌉ = (-125 : ℤ) := by
  have hlog : Real.log ((93 : ℝ) / 100) = -Real.log ((100 : ℝ) / 93) := by
    rw [show (93 : ℝ) / 100 = ((100 : ℝ) / 93)⁻¹ by norm_num, Real.log_inv]
  rw [hlog, show (1200 : ℝ) * -Real.log ((100 : ℝ) / 93) / Real.log 2
      = -((1200 : ℝ) * Real.log ((100 : ℝ) / 93) / Real.log 2) by ring,
    Int.ceil_neg, floor_log2_100_93]

lemma ceil_log2_79_100 :
    ⌈(1200 : ℝ) * Real.log ((79 : ℝ) / (100 : ℝ)) / Real.log 2⌉ = (-408 : ℤ) := by
  have hlog : Real.log ((79 : ℝ) / 100) = -Real.log ((100 : ℝ) / 79) := by
    rw [show (79 : ℝ) / 100 = ((100 : ℝ) / 79)⁻¹ by norm_num, Real.log_inv]
  rw [hlog, show (1200 : ℝ) * -Real.log ((100 : ℝ) / 79) / Real.log 2
      = -((1200 : ℝ) * Real.log ((100 : ℝ) / 79) / Real.log 2) by ring,
    Int.ceil_neg, floor_log2_100_79]

/-- Counterexample to C6 as stated: strict-betweenness of the rounded
bounds does not characterise the small tag.  With tempo 100, pitch 0 lies
strictly between MIN_PITCH_SMALL and MAX_PITCH_SMALL yet is tagged
pitch:exact (not pitch:small), and pitch 125 is tagged pitch:small although
it does not lie strictly between the bounds (the code compares
inclusively). -/
theorem tag_bands_cex :
    MIN_PITCH_SMALL < 0 ∧ (0 : ℤ) < MAX_PITCH_SMALL
    ∧ "pitch:small" ∉ get_tags_from_ann
        [("tempo", PyVal.str "100"), ("pitch", PyVal.str "0")]
    ∧ "pitch:small" ∈ get_tags_from_ann
        [("tempo", PyVal.str "100"), ("pitch", PyVal.str "125")]
    ∧ ¬(MIN_PITCH_SMALL < 125 ∧ (125 : ℤ) < MAX_PITCH_SMALL) := by decide

/-- Claim C6 (amended): the pitch band bounds are the ceiling (lower) and
floor (upper) of the cents conversion of the fixed ratios 1-0.07 and
1-0.21 and their reciprocals (the tempo bounds are the rounded percent
conversions by definition), and — for tempo 100 — an integer pitch is
tagged exact when 0, small exactly when non-zero and inclusively within the
small band, medium when non-zero, outside the small band and inclusively
within the medium band, large otherwise; symmetrically for an integer
tempo when pitch is 0. -/
theorem tag_bands_spec :
    (MIN_PITCH_SMALL = ⌈(1200 : ℝ) * Real.log ((THRESHOLD_SMALL : ℝ)) / Real.log 2⌉
      ∧ MAX_PITCH_SMALL = ⌊(1200 : ℝ) * Real.log (1 / (THRESHOLD_SMALL : ℝ)) / Real.log 2⌋
      ∧ MIN_PITCH_MEDIUM = ⌈(1200 : ℝ) * Real.log ((THRESHOLD_MEDIUM : ℝ)) / Real.log 2⌉
      ∧ MAX_PITCH_MEDIUM = ⌊(1200 : ℝ) * Real.log (1 / (THRESHOLD_MEDIUM : ℝ)) / Real.log 2⌋)
    ∧ (∀ (d : List (String × PyVal)) (p t : ℤ),
      get_item_as_int d "tempo" 100 = t →
      get_item_as_int d "pitch" 0 = p →
      (t = 100 →
        (("pitch:exact" ∈ get_tags_from_ann d ↔ p = 0)
          ∧ ("pitch:small" ∈ get_tags_from_ann d
              ↔ p ≠ 0 ∧ MIN_PITCH_SMALL ≤ p ∧ p ≤ MAX_PITCH_SMALL)
          ∧ ("pitch:medium" ∈ get_tags_from_ann d
              ↔ p ≠ 0 ∧ ¬(MIN_PITCH_SMALL ≤ p ∧ p ≤ MAX_PITCH_SMALL)
                ∧ (MIN_PITCH_MEDIUM ≤ p ∧ p ≤ MAX_PITCH_MEDIUM))
          ∧ ("pitch:large" ∈ get_tags_from_ann d
              ↔ p ≠ 0 ∧ ¬(MIN_PITCH_SMALL ≤ p ∧ p ≤ MAX_PITCH_SMALL)
                ∧ ¬(MIN_PITCH_MEDIUM ≤ p ∧ p ≤ MAX_PITCH_MEDIUM))))
      ∧ (p = 0 →
        (("tempo:exact" ∈ get_tags_from_ann d ↔ t = 100)
          ∧ ("tempo:small" ∈ get_tags_from_ann d
              ↔ t ≠ 100 ∧ MIN_TEMPO_SMALL ≤ t ∧ t ≤ MAX_TEMPO_SMALL)
          ∧ ("tempo:medium" ∈ get_tags_from_ann d
              ↔ t ≠ 100 ∧ ¬(MIN_TEMPO_SMALL ≤ t ∧ t ≤ MAX_TEMPO_SMALL)
                ∧ (MIN_TEMPO_MEDIUM ≤ t ∧ t ≤ MAX_TEMPO_MEDIUM))
          ∧ ("tempo:large" ∈ get_tags_from_ann d
              ↔ t ≠ 100 ∧ ¬(MIN_TEMPO_SMALL ≤ t ∧ t ≤ MAX_TEMPO_SMALL)
                ∧ ¬(MIN_TEMPO_MEDIUM ≤ t ∧ t ≤ MAX_TEMPO_MEDIUM))))) := by
  have hTS : ((THRESHOLD_SMALL : ℚ) : ℝ) = (93 : ℝ) / 100 := by
    norm_num [THRESHOLD_SMALL]
  have hTM : ((THRESHOLD_MEDIUM : ℚ) : ℝ) = (79 : ℝ) / 100 := by
    norm_num [THRESHOLD_MEDIUM]
  refine ⟨⟨?_, ?_, ?_, ?_⟩, ?_⟩
  · rw [hTS, ceil_log2_93_100]
    rfl
  · rw [hTS, show 1 / ((93 : ℝ) / 100) = (100 : ℝ) / 93 by norm_num, floor_log2_100_93]
    rfl
  · rw [hTM, ceil_log2_79_100]
    rfl
  · rw [hTM, show 1 / ((79 : ℝ) / 100) = (100 : ℝ) / 79 by norm_num, floor_log2_100_79]
    rfl
  · intro d p t ht hp
    have key : ∀ s : String,
        s ∉ (["echo", "high-pass", "low-pass", "reverb"] : List String) →
        s.data.head? ≠ some 'n' → s.data.head? ≠ some 'm' →
        (s ∈ get_tags_from_ann d ↔ s ∈ pitchTempoSpeedTags t p) := by
      intro s h1 h2 h3
      rw [mem_get_tags_pts d s h1 h2 h3, ht, hp]
    refine ⟨fun h100 => ?_, fun hp0 => ?_⟩
    · subst h100
      have hpm := pts_pitch_mem p
      exact ⟨(key "pitch:exact" (by decide) (by decide) (by decide)).trans hpm.1,
        (key "pitch:small" (by decide) (by decide) (by decide)).trans hpm.2.1,
        (key "pitch:medium" (by decide) (by decide) (by decide)).trans hpm.2.2.1,
        (key "pitch:large" (by decide) (by decide) (by decide)).trans hpm.2.2.2⟩
    · subst hp0
      have htm := pts_tempo_mem t
      exact ⟨(key "tempo:exact" (by decide) (by decide) (by decide)).trans htm.1,
        (key "tempo:small" (by decide) (by decide) (by decide)).trans htm.2.1,
        (key "tempo:medium" (by decide) (by decide) (by decide)).trans htm.2.2.1,
        (key "tempo:large" (by decide) (by decide) (by decide)).trans htm.2.2.2⟩

/-- Witness for the amended C6 at pitch 125 (on the inclusive boundary of
the small band). -/
theorem tag_bands_spec_w :
    "pitch:small" ∈ get_tags_from_ann
        [("tempo", PyVal.str "100"), ("pitch", PyVal.str "125")]
      ↔ (125 : ℤ) ≠ 0 ∧ MIN_PITCH_SMALL ≤ 125 ∧ (125 : ℤ) ≤ MAX_PITCH_SMALL :=
  ((tag_bands_spec.2 [("tempo", PyVal.str "100"), ("pitch", PyVal.str "125")]
      125 100 (by decide) (by decide)).1 rfl).2.1

end AFP
